import Mathlib

/-!
# Verification of the cross-exchange VWAP aggregator (`trading` repository)

A shallow embedding of the Go sources of the `trading` repository
(VWAP calculator, symbol parsing and normalization, symbol-mapping
backfill, ticker sinks, health tracking, outlier detector), together
with theorems settling the specification claims about them.

Conventions of the embedding:
* `github.com/shopspring/decimal` values are modelled as `ℚ`.
  Addition, subtraction, multiplication, absolute value and comparisons
  of that library are exact, so they denote the corresponding exact `ℚ`
  operations; `Div` rounds its result to 16 decimal places (the
  library's `DivisionPrecision`), rounding half away from zero, and
  `Round(n)` rounds to `n` places half away from zero.  All are
  modelled explicitly below.  The operations are implemented via
  `Rat.divInt` on numerators and denominators so that they evaluate by
  kernel reduction; the `..._eq` bridge lemmas prove them equal to the
  field operations of `ℚ`.
* Go strings that the code manipulates character-wise are modelled as
  `List Char` (Go indexes bytes; every symbol involved is ASCII, where
  bytes and characters coincide).
* `time.Time` values are threaded as an explicit `ℤ` parameter (`now`).
* Database tables touched by the code are modelled as lists of rows,
  and a batched `INSERT` is modelled by the list of rows it appends.
-/

namespace Trading

/-! ## Exact decimal arithmetic (shopspring/decimal) -/

/-- shopspring `Decimal.Add` (exact). -/
def decAdd (a b : ℚ) : ℚ := Rat.divInt (a.num * b.den + b.num * a.den) (a.den * b.den)

/-- shopspring `Decimal.Sub` (exact). -/
def decSub (a b : ℚ) : ℚ := Rat.divInt (a.num * b.den - b.num * a.den) (a.den * b.den)

/-- shopspring `Decimal.Mul` (exact). -/
def decMul (a b : ℚ) : ℚ := Rat.divInt (a.num * b.num) (a.den * b.den)

/-- shopspring `Decimal.Abs` (exact). -/
def decAbs (a : ℚ) : ℚ := Rat.divInt |a.num| a.den

/-- Exact rational division (the value `a/b` before shopspring's
`DivisionPrecision` rounding; `0` when `b = 0`). -/
def decDivExact (a b : ℚ) : ℚ := Rat.divInt (a.num * b.den) (a.den * b.num)

/-- `x * 10^p`, exact (scaling step of `Round`). -/
def decShift (p : ℕ) (x : ℚ) : ℚ := Rat.divInt (x.num * 10 ^ p) x.den

/-- Round a rational to an integer, half away from zero
(the rounding mode of shopspring `Round` / `DivRound`). -/
def roundHalfAway (x : ℚ) : ℤ :=
  if 0 ≤ x then Rat.floor (decAdd x (Rat.divInt 1 2))
  else -(Rat.floor (decAdd (Rat.divInt (-x.num) x.den) (Rat.divInt 1 2)))

/-- shopspring `Decimal.Round(p)`: round to `p` decimal places, half
away from zero. -/
def decRound (p : ℕ) (x : ℚ) : ℚ := Rat.divInt (roundHalfAway (decShift p x)) (10 ^ p)

/-- shopspring `Decimal.Div`: exact division rounded to
`DivisionPrecision = 16` decimal places. -/
def decDiv (a b : ℚ) : ℚ := decRound 16 (decDivExact a b)

/-- Sum of a list of decimals, as accumulated by the Go loops
(`sum = sum.Add(x)` starting from `decimal.Zero`). -/
def decSum (l : List ℚ) : ℚ := l.foldl decAdd 0

theorem decAdd_eq (a b : ℚ) : decAdd a b = a + b := by
  have ha : ((a.den : ℚ)) ≠ 0 := by exact_mod_cast a.den_nz
  have hb : ((b.den : ℚ)) ≠ 0 := by exact_mod_cast b.den_nz
  rw [decAdd, Rat.divInt_eq_div]
  push_cast
  conv_rhs => rw [← Rat.num_div_den a, ← Rat.num_div_den b]
  field_simp

theorem decSub_eq (a b : ℚ) : decSub a b = a - b := by
  have ha : ((a.den : ℚ)) ≠ 0 := by exact_mod_cast a.den_nz
  have hb : ((b.den : ℚ)) ≠ 0 := by exact_mod_cast b.den_nz
  rw [decSub, Rat.divInt_eq_div]
  push_cast
  conv_rhs => rw [← Rat.num_div_den a, ← Rat.num_div_den b]
  field_simp
  ring

theorem decMul_eq (a b : ℚ) : decMul a b = a * b := by
  have ha : ((a.den : ℚ)) ≠ 0 := by exact_mod_cast a.den_nz
  have hb : ((b.den : ℚ)) ≠ 0 := by exact_mod_cast b.den_nz
  rw [decMul, Rat.divInt_eq_div]
  push_cast
  conv_rhs => rw [← Rat.num_div_den a, ← Rat.num_div_den b]
  field_simp

theorem decAbs_eq (a : ℚ) : decAbs a = |a| := by
  rcases le_or_lt 0 a with h | h
  · rw [abs_of_nonneg h, decAbs, abs_of_nonneg (Rat.num_nonneg.mpr h), Rat.num_divInt_den]
  · rw [abs_of_neg h, decAbs, abs_of_neg (Rat.num_neg.mpr h)]
    conv_rhs => rw [← Rat.num_divInt_den a]
    rw [← Rat.neg_divInt]

theorem decDivExact_eq (a b : ℚ) : decDivExact a b = a / b := by
  rcases eq_or_ne b 0 with rfl | hb
  · simp [decDivExact]
  · have ha : ((a.den : ℚ)) ≠ 0 := by exact_mod_cast a.den_nz
    have hbn : ((b.num : ℚ)) ≠ 0 := by exact_mod_cast Rat.num_ne_zero.mpr hb
    have hbd : ((b.den : ℚ)) ≠ 0 := by exact_mod_cast b.den_nz
    rw [decDivExact, Rat.divInt_eq_div]
    push_cast
    conv_rhs => rw [← Rat.num_div_den a, ← Rat.num_div_den b]
    field_simp

theorem decSum_eq (l : List ℚ) : decSum l = l.sum := by
  suffices h : ∀ acc : ℚ, l.foldl decAdd acc = acc + l.sum by
    simpa using h 0
  induction l with
  | nil => simp
  | cons x xs ih =>
    intro acc
    simp [List.foldl_cons, ih, decAdd_eq]
    ring

/-! ## `internal/calculator/vwap.go` -/

/-- `PriceData` (vwap.go): price and volume data from an exchange. -/
structure PriceData where
  ExchangeID : String
  Symbol : String
  Price : ℚ
  Volume : ℚ
  Weight : ℚ
  Timestamp : ℤ
  deriving Repr, DecidableEq

/-- `PriceSource` (vwap.go): individual exchange contribution. -/
structure PriceSource where
  Exchange : String
  Price : ℚ
  Volume : ℚ
  Weight : ℚ
  deriving Repr, DecidableEq

/-- `VWAPResult` (vwap.go): the calculated VWAP price. -/
structure VWAPResult where
  BaseTokenID : String
  QuoteTokenID : String
  VWAPPrice : ℚ
  TotalVolume : ℚ
  ExchangeCount : ℕ
  ContributingExchanges : List String
  PriceSources : List PriceSource
  Timestamp : ℤ
  deriving Repr, DecidableEq

/-- The validity test of `filterValidPrices` (vwap.go lines 92-105):
positive price and volume, price below 1,000,000 and volume below
1,000,000,000. -/
def validPrice (p : PriceData) : Bool :=
  decide (0 < p.Price) && decide (0 < p.Volume) &&
    decide (p.Price < 1000000) && decide (p.Volume < 1000000000)

/-- `filterValidPrices` (vwap.go): keeps exactly the valid entries, in
order. -/
def filterValidPrices (prices : List PriceData) : List PriceData :=
  prices.filter validPrice

/-- `calculateMedianPrice` (vwap.go): despite the name, the arithmetic
mean of the prices (`sum.Div(decimal.NewFromInt(len))`). -/
def calculateMedianPrice (prices : List PriceData) : ℚ :=
  decDiv (decSum (prices.map PriceData.Price)) (Rat.divInt prices.length 1)

/-- `removeOutliers` (vwap.go lines 112-147): with fewer than 3 entries
return the input; otherwise drop entries deviating from the mean by
more than 10% of the mean (`decimal.NewFromFloat(0.10)` is exactly
`1/10`); if fewer than `len/2` (Go integer division) entries remain,
return the untrimmed input. -/
def removeOutliers (prices : List PriceData) : List PriceData :=
  if prices.length < 3 then prices
  else
    let median := calculateMedianPrice prices
    let maxDeviation := decMul median (Rat.divInt 1 10)
    let cleaned := prices.filter
      (fun p => decide (decAbs (decSub p.Price median) ≤ maxDeviation))
    if cleaned.length < prices.length / 2 then prices else cleaned

/-- One step of building `exchangeMap` (vwap.go lines 170-180): on a
repeated exchange keep the entry with the larger volume.  The Go map is
modelled as a list of entries with pairwise distinct exchange IDs, in
first-insertion order. -/
def insertByExchange (m : List PriceData) (p : PriceData) : List PriceData :=
  if m.any (fun q => q.ExchangeID == p.ExchangeID) then
    m.map (fun q => if q.ExchangeID == p.ExchangeID && decide (q.Volume < p.Volume) then p else q)
  else
    m ++ [p]

/-- `exchangeMap` of `calculateVWAP`: group by exchange, keeping the
higher-volume entry per exchange. -/
def dedupByExchange (prices : List PriceData) : List PriceData :=
  prices.foldl insertByExchange []

/-- `calculateVWAP` (vwap.go lines 160-223).  Go iterates the map in an
unspecified order; the three sums are order-independent, and the two
emitted lists are modelled in first-insertion order. -/
def calculateVWAP (now : ℤ) (prices : List PriceData) : VWAPResult :=
  let m := dedupByExchange prices
  let weightedSum := decSum (m.map (fun p => decMul p.Price (decMul p.Volume p.Weight)))
  let totalVolume := decSum (m.map PriceData.Volume)
  let totalWeight := decSum (m.map (fun p => decMul p.Volume p.Weight))
  let vwapPrice :=
    if 0 < totalWeight then decDiv weightedSum totalWeight
    else if 0 < totalVolume then decDiv weightedSum totalVolume
    else 0
  { BaseTokenID := ((prices.head?).map PriceData.Symbol).getD ""
    QuoteTokenID := ""
    VWAPPrice := decRound 8 vwapPrice
    TotalVolume := totalVolume
    ExchangeCount := m.length
    ContributingExchanges := m.map PriceData.ExchangeID
    PriceSources := m.map (fun p => ⟨p.ExchangeID, p.Price, p.Volume, p.Weight⟩)
    Timestamp := now }

/-- `Calculate` (vwap.go lines 56-86). -/
def Calculate (now : ℤ) (prices : List PriceData) : Except String VWAPResult :=
  if prices.length = 0 then .error "no price data provided"
  else
    let validPrices := filterValidPrices prices
    if validPrices.length = 0 then .error "no valid prices after filtering"
    else
      let cleanPrices := removeOutliers validPrices
      if cleanPrices.length = 0 then .error "no prices left after outlier removal"
      else .ok (calculateVWAP now cleanPrices)

/-- `CalculateBatch` (vwap.go lines 226-252): one `Calculate` per pair;
a pair whose calculation errors contributes nothing to the result map.
The Go map is modelled as an association list. -/
def CalculateBatch (now : ℤ) (pricesByPair : List (String × List PriceData)) :
    List (String × VWAPResult) :=
  pricesByPair.foldl
    (fun results kv =>
      match Calculate now kv.2 with
      | .ok r => results ++ [(kv.1, r)]
      | .error _ => results)
    []

/-! ## Go strings as character lists -/

/-- Go strings manipulated character-wise (`ASCII`: bytes = chars). -/
abbrev Str := List Char

/-- `strings.ToUpper` (ASCII). -/
def upperStr (s : Str) : Str := s.map Char.toUpper

/-- `strings.ToLower` (ASCII). -/
def lowerStr (s : Str) : Str := s.map Char.toLower

/-- `strings.TrimSuffix`: remove one trailing occurrence of `q` when
present. -/
def trimSuffix (s q : Str) : Str :=
  if q.isSuffixOf s then s.take (s.length - q.length) else s

/-- `strings.Split(s, sep)` for a one-character separator. -/
def splitOnChar (sep : Char) : Str → List Str
  | [] => [[]]
  | c :: rest =>
    match splitOnChar sep rest with
    | [] => [[c]]
    | h :: t => if c == sep then [] :: h :: t else (c :: h) :: t

/-- Fuelled worker for `strings.ReplaceAll`: replace non-overlapping
occurrences of `old` left to right.  One unit of fuel per character is
enough since `old` is nonempty at every call site. -/
def replaceAllGo (old new : Str) : ℕ → Str → Str
  | 0, s => s
  | _ + 1, [] => []
  | fuel + 1, c :: rest =>
    if old.isPrefixOf (c :: rest) then
      new ++ replaceAllGo old new fuel ((c :: rest).drop old.length)
    else
      c :: replaceAllGo old new fuel rest

/-- `strings.ReplaceAll(s, old, new)` (all call sites pass a nonempty
`old`). -/
def replaceAll (s old new : Str) : Str :=
  if old.isEmpty then s else replaceAllGo old new s.length s

/-! ## `internal/exchanges` (second half of `scheduler.go`) -/

/-- `Health` (exchanges package): exchange health status. -/
structure Health where
  IsHealthy : Bool
  LastSuccessfulPoll : ℤ
  ConsecutiveErrors : ℤ
  AverageResponseMs : ℤ
  deriving Repr, DecidableEq

/-- The initial health of `NewGenericRESTClient`:
`Health{IsHealthy: true}` with zero-valued remaining fields. -/
def initialHealth : Health :=
  { IsHealthy := true, LastSuccessfulPoll := 0, ConsecutiveErrors := 0, AverageResponseMs := 0 }

/-- `GenericRESTClient.UpdateHealth` (scheduler.go lines 418-433):
success resets the error counter and marks healthy; failure increments
it and marks unhealthy from the third consecutive error on. -/
def UpdateHealth (h : Health) (success : Bool) (now responseMs : ℤ) : Health :=
  if success then
    { IsHealthy := true
      LastSuccessfulPoll := now
      ConsecutiveErrors := 0
      AverageResponseMs := responseMs }
  else
    let errs := h.ConsecutiveErrors + 1
    { h with
      ConsecutiveErrors := errs
      IsHealthy := if 3 ≤ errs then false else h.IsHealthy }

/-- A sequence of health updates applied in order
(`(success, now, responseMs)` per fetch). -/
def runUpdates (h : Health) (events : List (Bool × ℤ × ℤ)) : Health :=
  events.foldl (fun st e => UpdateHealth st e.1 e.2.1 e.2.2) h

/-- `GenericRESTClient.normalizeSymbol` (scheduler.go lines 468-504):
convert a canonical `BASE-QUOTE` symbol to the exchange-specific
format.  This is the join function of the round-trip law. -/
def normalizeSymbolEx (format : String) (symbol : Str) : Str :=
  if format = "BTCUSDT" then upperStr (replaceAll symbol ['-'] [])
  else if format = "BTC-USDT" || format = "BTC-USD" then upperStr symbol
  else if format = "BTC_USDT" then upperStr (replaceAll symbol ['-'] ['_'])
  else if format = "btcusdt" then lowerStr (replaceAll symbol ['-'] [])
  else if format = "tBTCUSD" then 't' :: upperStr (replaceAll symbol ['-'] [])
  else if format = "XXBTZUSD" then
    match splitOnChar '-' (upperStr symbol) with
    | [base, quote] =>
      let base' := if base = "BTC".data then "XXBT".data
                   else if base.length = 3 then 'X' :: base else base
      let quote' := if quote = "USD".data || quote = "EUR".data || quote = "GBP".data
                    then 'Z' :: quote else quote
      base' ++ quote'
    | _ => upperStr symbol
  else upperStr symbol

/-- The joined pair symbol `format_join(base, quote, fmt)`: the
exchange client builds it by normalizing `base-quote`
(`GetTickers` → `normalizeSymbol`). -/
def formatJoin (format : String) (base quote : Str) : Str :=
  normalizeSymbolEx format (base ++ '-' :: quote)

/-- The suffix-match and length-heuristic phase of
`BaseParser.ParseSymbolPair` (scheduler.go lines 536-553): first match
in the stored order of the quote-currency list wins; then the
3/4-character fallbacks on the (non-uppercased) symbol. -/
def suffixPhase (quoteCurrencies : List Str) (symbol : Str) : Str × Str :=
  let upperSymbol := upperStr symbol
  match quoteCurrencies.find? (fun quote => quote.isSuffixOf upperSymbol) with
  | some quote => (trimSuffix upperSymbol quote, quote)
  | none =>
    if 6 < symbol.length then
      (symbol.take (symbol.length - 4), symbol.drop (symbol.length - 4))
    else if symbol.length = 6 then (symbol.take 3, symbol.drop 3)
    else (symbol, [])

/-- `BaseParser.ParseSymbolPair` (scheduler.go lines 512-554). -/
def ParseSymbolPair (quoteCurrencies : List Str) (symbol : Str) (format : String) :
    Str × Str :=
  if format = "BTC-USDT" || format = "BTC-USD" then
    match splitOnChar '-' symbol with
    | [a, b] => (a, b)
    | _ => suffixPhase quoteCurrencies symbol
  else if format = "BTC_USDT" then
    match splitOnChar '_' symbol with
    | [a, b] => (a, b)
    | _ => suffixPhase quoteCurrencies symbol
  else if format = "tBTCUSD" then
    suffixPhase quoteCurrencies (if "t".data.isPrefixOf symbol then symbol.drop 1 else symbol)
  else if format = "XXBTZUSD" then
    suffixPhase quoteCurrencies
      (replaceAll (replaceAll (replaceAll symbol "XXBT".data "BTC".data)
        "ZUSD".data "USD".data) "ZEUR".data "EUR".data)
  else suffixPhase quoteCurrencies symbol

/-! ## Symbol resolver (`cmd/main.go`, package `symbol`) -/

/-- The prefix-stripping loop of `Resolver.normalizeSymbol` (main.go
lines 1083-1089): strip the first prefix of the list that matches and
leaves at least one character, then stop. -/
def stripPrefixLoop : List Str → Str → Str
  | [], s => s
  | p :: ps, s =>
    if p.isPrefixOf s && p.length < s.length then s.drop p.length
    else stripPrefixLoop ps s

/-- `Resolver.normalizeSymbol` (main.go lines 1078-1103): uppercase,
strip a vendor prefix from `["X", "XX", "t"]`, and map an exact `XBT`
to `BTC` (the replacements map has that single entry and is compared
for equality). -/
def normalizeSymbol (symbol : Str) : Str :=
  let normalized := upperStr symbol
  let normalized := stripPrefixLoop ["X".data, "XX".data, "t".data] normalized
  if normalized = "XBT".data then "BTC".data else normalized

/-- A row of the relational table `token_exchange_symbols`
(migrations 000002 and 000004): the tracking columns carry the
`ALTER TABLE` defaults `mapping_method 'manual'`,
`confidence_score 1.00`, `needs_verification FALSE`. -/
structure TokenExchangeSymbolRow where
  token_id : ℤ
  exchange_id : String
  exchange_symbol : String
  normalized_symbol : String
  mapping_method : String
  confidence_score : ℚ
  needs_verification : Bool
  deriving Repr, DecidableEq

/-- `Resolver.AddSymbolMapping` (main.go lines 911-934): the SQL
`INSERT INTO token_exchange_symbols (token_id, exchange_id,
exchange_symbol, normalized_symbol) VALUES … ON CONFLICT (exchange_id,
exchange_symbol) DO UPDATE SET token_id, normalized_symbol`.  Columns
absent from the insert take their schema defaults; columns absent from
the conflict update keep their stored values. -/
def AddSymbolMapping (table : List TokenExchangeSymbolRow) (tokenID : ℤ)
    (exchangeID exchangeSymbol normalizedSymbol : String) :
    List TokenExchangeSymbolRow :=
  if table.any (fun r => r.exchange_id == exchangeID && r.exchange_symbol == exchangeSymbol) then
    table.map (fun r =>
      if r.exchange_id == exchangeID && r.exchange_symbol == exchangeSymbol then
        { r with token_id := tokenID, normalized_symbol := normalizedSymbol }
      else r)
  else
    table ++ [{ token_id := tokenID
                exchange_id := exchangeID
                exchange_symbol := exchangeSymbol
                normalized_symbol := normalizedSymbol
                mapping_method := "manual"
                confidence_score := 1
                needs_verification := false }]

/-! ## Ticker sinks (`cmd/migrate/migrate.go`, `internal/storage/price_storage.go`) -/

/-- `TickerData` (exchanges package): unified ticker data. -/
structure TickerData where
  ExchangeID : String
  Symbol : String
  BaseSymbol : String
  QuoteSymbol : String
  BaseTokenID : ℤ
  QuoteTokenID : ℤ
  Price : ℚ
  Volume24h : ℚ
  QuoteVolume24h : ℚ
  PriceChange24h : ℚ
  High24h : ℚ
  Low24h : ℚ
  Timestamp : ℤ
  deriving Repr, DecidableEq

/-- Go `uint32(x)` conversion of an `int` token ID. -/
def toUInt32 (n : ℤ) : ℕ := (n % 4294967296).toNat

/-- A row of the ClickHouse `price_tickers` insert issued by
`Service.storeTickers` (migrate.go lines 396-400; no symbol columns). -/
structure MigrateTickerRow where
  timestamp : ℤ
  exchange_id : String
  base_token_id : ℕ
  quote_token_id : ℕ
  price : ℚ
  volume_24h : ℚ
  quote_volume_24h : ℚ
  high_24h : ℚ
  low_24h : ℚ
  price_change_24h : ℚ
  deriving Repr, DecidableEq

/-- The row appended for one ticker by `Service.storeTickers`
(migrate.go lines 414-424). -/
def migrateRowOf (now : ℤ) (ticker : TickerData) : MigrateTickerRow :=
  { timestamp := now
    exchange_id := ticker.ExchangeID
    base_token_id := toUInt32 ticker.BaseTokenID
    quote_token_id := toUInt32 ticker.QuoteTokenID
    price := ticker.Price
    volume_24h := ticker.Volume24h
    quote_volume_24h := ticker.QuoteVolume24h
    high_24h := ticker.High24h
    low_24h := ticker.Low24h
    price_change_24h := ticker.PriceChange24h }

/-- `Service.storeTickers` (migrate.go lines 388-447), modelled by the
batch rows it appends: tickers whose base or quote token ID is 0 are
skipped. -/
def storeTickers (now : ℤ) (tickers : List TickerData) : List MigrateTickerRow :=
  tickers.foldl
    (fun batch ticker =>
      if ticker.BaseTokenID == 0 || ticker.QuoteTokenID == 0 then batch
      else batch ++ [migrateRowOf now ticker])
    []

/-- A row of the ClickHouse `price_tickers` insert issued by
`PriceStorage.StorePriceTickers` (price_storage.go lines 33-38;
includes the symbol columns). -/
structure StorageTickerRow where
  timestamp : ℤ
  exchange_id : String
  symbol : String
  base_symbol : String
  quote_symbol : String
  base_token_id : ℕ
  quote_token_id : ℕ
  price : ℚ
  volume_24h : ℚ
  quote_volume_24h : ℚ
  price_change_24h : ℚ
  high_24h : ℚ
  low_24h : ℚ
  deriving Repr, DecidableEq

/-- The row appended for one ticker by `PriceStorage.StorePriceTickers`
(price_storage.go lines 50-64). -/
def storageRowOf (ticker : TickerData) : StorageTickerRow :=
  { timestamp := ticker.Timestamp
    exchange_id := ticker.ExchangeID
    symbol := ticker.Symbol
    base_symbol := ticker.BaseSymbol
    quote_symbol := ticker.QuoteSymbol
    base_token_id := toUInt32 ticker.BaseTokenID
    quote_token_id := toUInt32 ticker.QuoteTokenID
    price := ticker.Price
    volume_24h := ticker.Volume24h
    quote_volume_24h := ticker.QuoteVolume24h
    price_change_24h := ticker.PriceChange24h
    high_24h := ticker.High24h
    low_24h := ticker.Low24h }

/-- `PriceStorage.StorePriceTickers` (price_storage.go lines 28-84),
modelled by the batch rows it appends: tickers with an empty base or
quote symbol are skipped; unresolved token IDs are stored as 0. -/
def StorePriceTickers (tickers : List TickerData) : List StorageTickerRow :=
  tickers.foldl
    (fun batch ticker =>
      if ticker.BaseSymbol == "" || ticker.QuoteSymbol == "" then batch
      else batch ++ [storageRowOf ticker])
    []

/-! ## Outlier detector (`src/unnamed/part_004`, package `outlier`) -/

/-- `PricePoint` (part_004): a single latest price per exchange and
pair. -/
structure PricePoint where
  ExchangeID : String
  BaseTokenID : ℤ
  QuoteTokenID : ℤ
  Price : ℚ
  Timestamp : ℤ
  deriving Repr, DecidableEq

/-- `Outlier` (part_004): a detected price outlier.  The Go float
`StdDeviations = deviation / sqrt(variance)` is irrational in general
and is not representable here; the outlier *condition* involving it is
modelled exactly in squared form below, and no claim concerns the
stored value. -/
structure OutlierRec where
  ExchangeID : String
  BaseTokenID : ℤ
  QuoteTokenID : ℤ
  ExchangePrice : ℚ
  AveragePrice : ℚ
  DeviationPercent : ℚ
  MappingMethod : String
  Timestamp : ℤ
  deriving Repr, DecidableEq

/-- The `token_exchange_symbols` lookup of `Detector.getMappingMethod`
(part_004 lines 193-208), modelled as an association list keyed by
`(exchange_id, token_id)`; a missing row yields `"unknown"`. -/
def getMappingMethod (db : List ((String × ℤ) × String)) (exchangeID : String)
    (tokenID : ℤ) : String :=
  ((db.lookup (exchangeID, tokenID)).getD "unknown")

/-- `Detector` thresholds (part_004 `NewDetector`): Go float64 fields,
modelled as exact rationals (the detector's statistics are float-based
in Go; only their comparisons matter to the claims). -/
structure Detector where
  db : List ((String × ℤ) × String)
  deviationThreshold : ℚ
  stdDevMultiplier : ℚ
  deriving Repr

/-- `Detector.detectPairOutliers` (part_004 lines 141-191): population
mean and variance of the pair's prices; a price is flagged when its
relative deviation exceeds `deviationThreshold` (in percent) or its
deviation exceeds `stdDevMultiplier` standard deviations — the latter
`deviation/sqrt(variance) > m` is modelled by the equivalent
`deviation² > m²·variance` (for `deviation ≥ 0`, `m ≥ 0`, matching the
IEEE `Inf`/`NaN` outcomes at `variance = 0`).  A flagged price is
emitted only when its mapping method is `"symbol"`. -/
def detectPairOutliers (d : Detector) (prices : List PricePoint) : List OutlierRec :=
  if prices.length < 2 then []
  else
    let sum := decSum (prices.map PricePoint.Price)
    let sumSquares := decSum (prices.map (fun p => decMul p.Price p.Price))
    let n : ℚ := Rat.divInt prices.length 1
    let mean := decDiv sum n
    let variance := decSub (decDiv sumSquares n) (decMul mean mean)
    prices.filterMap (fun price =>
      let deviation := decAbs (decSub price.Price mean)
      let deviationPercent := decMul (decDivExact deviation mean) 100
      if decide (decMul d.deviationThreshold 100 < deviationPercent) ||
         decide (decMul (decMul d.stdDevMultiplier d.stdDevMultiplier) variance <
           decMul deviation deviation) then
        let mappingMethod := getMappingMethod d.db price.ExchangeID price.BaseTokenID
        if mappingMethod = "symbol" then
          some { ExchangeID := price.ExchangeID
                 BaseTokenID := price.BaseTokenID
                 QuoteTokenID := price.QuoteTokenID
                 ExchangePrice := price.Price
                 AveragePrice := mean
                 DeviationPercent := deviationPercent
                 MappingMethod := mappingMethod
                 Timestamp := price.Timestamp }
        else none
      else none)

/-- `Detector.storeOutliers` (part_004 lines 210-250): inserts exactly
the rows of the list it is given into `price_outliers`; modelled by the
list of inserted rows. -/
def storeOutliers (outliers : List OutlierRec) : List OutlierRec :=
  outliers

/-! ## Helper lemmas -/

deriving instance DecidableEq for Except

theorem char_toNat_ofNat (n : ℕ) (h : Nat.isValidChar n) : (Char.ofNat n).toNat = n := by
  simp [Char.ofNat, h, Char.ofNatAux, Char.toNat, UInt32.toNat]

/-- ASCII uppercasing never produces a lowercase letter; in particular
never `'t'`. -/
theorem toUpper_ne_t (c : Char) : Char.toUpper c ≠ 't' := by
  intro hEq
  unfold Char.toUpper at hEq
  by_cases h : c.toNat ≥ 97 ∧ c.toNat ≤ 122
  · rw [if_pos h] at hEq
    have h2 : (Char.ofNat (c.toNat - 32)).toNat = c.toNat - 32 :=
      char_toNat_ofNat _ (Or.inl (by omega))
    have h3 : ('t').toNat = 116 := by decide
    rw [hEq] at h2
    omega
  · rw [if_neg h] at hEq
    subst hEq
    exact h (by constructor <;> decide)

theorem updateHealth_consecutive_nonneg (h : Health) (s : Bool) (n r : ℤ)
    (hh : 0 ≤ h.ConsecutiveErrors) : 0 ≤ (UpdateHealth h s n r).ConsecutiveErrors := by
  cases s
  · simp only [UpdateHealth, Bool.false_eq_true, if_false]
    omega
  · simp [UpdateHealth]

theorem runUpdates_consecutive_nonneg_aux (events : List (Bool × ℤ × ℤ)) :
    ∀ h : Health, 0 ≤ h.ConsecutiveErrors → 0 ≤ (runUpdates h events).ConsecutiveErrors := by
  induction events with
  | nil => intro h hh; simpa [runUpdates] using hh
  | cons e es ih =>
    intro h hh
    simpa [runUpdates] using ih _ (updateHealth_consecutive_nonneg h e.1 e.2.1 e.2.2 hh)

theorem runUpdates_consecutive_nonneg (events : List (Bool × ℤ × ℤ)) :
    0 ≤ (runUpdates initialHealth events).ConsecutiveErrors :=
  runUpdates_consecutive_nonneg_aux events initialHealth (by simp [initialHealth])

/-! ## Claim theorems -/

/-- C6: for every sequence of health updates on an adapter, three
consecutive fetch failures make `is_healthy` false, and the next
success makes `is_healthy` true again and resets `consecutive_errors`
to 0. -/
theorem claim_C6 (events : List (Bool × ℤ × ℤ)) (n₁ r₁ n₂ r₂ n₃ r₃ n₄ r₄ : ℤ) :
    (runUpdates (runUpdates initialHealth events)
        [(false, n₁, r₁), (false, n₂, r₂), (false, n₃, r₃)]).IsHealthy = false ∧
    (UpdateHealth (runUpdates (runUpdates initialHealth events)
        [(false, n₁, r₁), (false, n₂, r₂), (false, n₃, r₃)]) true n₄ r₄).IsHealthy = true ∧
    (UpdateHealth (runUpdates (runUpdates initialHealth events)
        [(false, n₁, r₁), (false, n₂, r₂), (false, n₃, r₃)]) true n₄ r₄).ConsecutiveErrors
      = 0 := by
  have hC := runUpdates_consecutive_nonneg events
  generalize runUpdates initialHealth events = h at hC ⊢
  refine ⟨?_, by simp [UpdateHealth], by simp [UpdateHealth]⟩
  simp only [runUpdates, List.foldl_cons, List.foldl_nil, UpdateHealth, Bool.false_eq_true,
    if_false]
  rw [if_pos (by omega)]

/-- C4 (code bug): `AddSymbolMapping` inserts only the four identifying
columns, so a backfilled `token_exchange_symbols` row takes the schema
defaults `mapping_method = "manual"`, `confidence_score = 1.00`,
`needs_verification = false` — not the `"symbol"` / `0.5` / `true` the
specification requires of fallback backfills. -/
theorem claim_C4_code_bug :
    AddSymbolMapping [] 42 "binance" "BTCUSDT" "BTCUSDT" =
      [⟨42, "binance", "BTCUSDT", "BTCUSDT", "manual", 1, false⟩] ∧
    ("manual" ≠ "symbol" ∧ (1 : ℚ) ≠ Rat.divInt 1 2 ∧ (false : Bool) ≠ true) := by
  decide

/-- C7 (code bug): in `calculateVWAP`, when the total weight
`Σ(volume×weight)` is 0 but `Σ(volume) > 0`, the code divides the
*weighted* sum (which is then 0) by the total volume and yields 0,
instead of the simple volume weighting `Σ(price×volume)/Σ(volume)`
(here 150) announced by its own comment and the specification. -/
theorem claim_C7_code_bug :
    decSum ((dedupByExchange [⟨"exA", "P", 100, 10, 0, 0⟩, ⟨"exB", "P", 200, 10, 0, 0⟩]).map
        (fun p => decMul p.Volume p.Weight)) = 0 ∧
    decSum ((dedupByExchange [⟨"exA", "P", 100, 10, 0, 0⟩, ⟨"exB", "P", 200, 10, 0, 0⟩]).map
        PriceData.Volume) = 20 ∧
    (calculateVWAP 0 [⟨"exA", "P", 100, 10, 0, 0⟩, ⟨"exB", "P", 200, 10, 0, 0⟩]).VWAPPrice
      = 0 ∧
    decDiv (decSum ((dedupByExchange
          [⟨"exA", "P", 100, 10, 0, 0⟩, ⟨"exB", "P", 200, 10, 0, 0⟩]).map
        (fun p => decMul p.Price p.Volume)))
      (decSum ((dedupByExchange
          [⟨"exA", "P", 100, 10, 0, 0⟩, ⟨"exB", "P", 200, 10, 0, 0⟩]).map
        PriceData.Volume)) = 150 ∧
    (0 : ℚ) ≠ 150 := by
  decide

/-- C5 (counterexample): a polled ticker with an unresolved base token
ID (`base_token_id = 0`) is *not* persisted by the migrate service's
write path `storeTickers` — the batch it sends is empty — while
`StorePriceTickers` does store it. -/
theorem claim_C5_counterexample :
    storeTickers 5 [⟨"binance", "FOOUSDT", "FOO", "USDT", 0, 7, 1, 2, 0, 0, 0, 0, 5⟩] = [] ∧
    (StorePriceTickers [⟨"binance", "FOOUSDT", "FOO", "USDT", 0, 7, 1, 2, 0, 0, 0, 0, 5⟩]).length
      = 1 := by
  decide

/-- C2 (counterexample): a 3-entry group with prices 100, 130, 70 has
mean 100 and threshold 10; the entries at 130 and 70 both deviate by
30 > 10 and are trimmed, yet `removeOutliers` keeps the single
remaining entry instead of reverting to the untrimmed set (the revert
guard compares against `3/2 = 1` in Go integer division). -/
theorem claim_C2_counterexample :
    removeOutliers [⟨"ex1", "P", 100, 10, Rat.divInt 1 20, 0⟩,
        ⟨"ex2", "P", 130, 10, Rat.divInt 1 20, 0⟩,
        ⟨"ex3", "P", 70, 10, Rat.divInt 1 20, 0⟩]
      = [⟨"ex1", "P", 100, 10, Rat.divInt 1 20, 0⟩] ∧
    removeOutliers [⟨"ex1", "P", 100, 10, Rat.divInt 1 20, 0⟩,
        ⟨"ex2", "P", 130, 10, Rat.divInt 1 20, 0⟩,
        ⟨"ex3", "P", 70, 10, Rat.divInt 1 20, 0⟩]
      ≠ [⟨"ex1", "P", 100, 10, Rat.divInt 1 20, 0⟩,
        ⟨"ex2", "P", 130, 10, Rat.divInt 1 20, 0⟩,
        ⟨"ex3", "P", 70, 10, Rat.divInt 1 20, 0⟩] := by
  decide

/-- C1 (counterexample): `Calculate` emits a result for a single-entry
group — `exchange_count = 1 < 2` — and rounding a price of `10⁻⁹` to 8
decimal places yields `vwap_price = 0`, so neither `exchange_count ≥ 2`
nor `vwap_price > 0` holds of every emitted result. -/
theorem claim_C1_counterexample :
    (Calculate 0 [⟨"binance", "FOO-USDT", Rat.divInt 1 1000000000, 1, Rat.divInt 3 20, 0⟩]).toOption.map
      (fun r => (r.ExchangeCount, r.VWAPPrice)) = some (1, 0) := by
  decide

/-- C9 (counterexample): `normalizeSymbol` strips the leading `X` of
`"XBT"` *before* consulting the `XBT→BTC` aliasing (which compares for
exact equality), so the input `"XBT"` yields `"BT"`, not `"BTC"`. -/
theorem claim_C9_counterexample :
    normalizeSymbol "XBT".data = "BT".data ∧
    normalizeSymbol "XBT".data ≠ "BTC".data := by
  decide

/-- C3 (counterexample): with the quote-currency list ordered
`["USD", "BUSD"]`, the joined symbol of `(ETH, BUSD)` in the
concatenated format is `ETHBUSD`, and the suffix match — performed in
list order, not longest-first — hits `USD` first, returning
`(ETHB, USD)` instead of `(ETH, BUSD)` although `BUSD` is in the
list. -/
theorem claim_C3_counterexample :
    ParseSymbolPair ["USD".data, "BUSD".data]
        (formatJoin "BTCUSDT" "ETH".data "BUSD".data) "BTCUSDT"
      = ("ETHB".data, "USD".data) ∧
    "BUSD".data ∈ ["USD".data, "BUSD".data] ∧
    ("ETHB".data, "USD".data) ≠ ("ETH".data, "BUSD".data) := by
  decide

/-- A batch loop that skips entries failing a guard appends exactly the
rows of the kept entries, in order. -/
theorem foldl_skip_append {α β : Type} (c : α → Bool) (f : α → β) :
    ∀ (l : List α) (acc : List β),
      l.foldl (fun batch t => if c t then batch else batch ++ [f t]) acc
        = acc ++ (l.filter (fun t => !(c t))).map f := by
  intro l
  induction l with
  | nil => intro acc; simp
  | cons x xs ih =>
    intro acc
    cases hc : c x <;>
      simp [List.foldl_cons, List.filter_cons, hc, ih, List.append_assoc]

/-- C5 (amended): the migrate service's write path skips every ticker
with an unresolved token ID, while `StorePriceTickers` persists every
ticker with nonempty base and quote symbols, storing unresolved token
IDs as 0. -/
theorem claim_C5_amended (now : ℤ) (tickers : List TickerData) :
    storeTickers now tickers
      = (tickers.filter
          (fun t => !(t.BaseTokenID == 0 || t.QuoteTokenID == 0))).map (migrateRowOf now) ∧
    StorePriceTickers tickers
      = (tickers.filter
          (fun t => !(t.BaseSymbol == "" || t.QuoteSymbol == ""))).map storageRowOf := by
  constructor
  · rw [storeTickers]
    simpa only [List.nil_append] using foldl_skip_append
      (fun t => t.BaseTokenID == 0 || t.QuoteTokenID == 0) (migrateRowOf now) tickers []
  · rw [StorePriceTickers]
    simpa only [List.nil_append] using foldl_skip_append
      (fun t => t.BaseSymbol == "" || t.QuoteSymbol == "") storageRowOf tickers []

/-- C8: every outlier that reaches `storeOutliers` carries
`mapping_method = "symbol"`, and its `(exchange, base token)` mapping
indeed resolves to `"symbol"`; deviating prices with any other mapping
method are never persisted. -/
theorem claim_C8 (d : Detector) (prices : List PricePoint) (o : OutlierRec)
    (ho : o ∈ storeOutliers (detectPairOutliers d prices)) :
    o.MappingMethod = "symbol" ∧
      getMappingMethod d.db o.ExchangeID o.BaseTokenID = "symbol" := by
  rw [storeOutliers] at ho
  simp only [detectPairOutliers] at ho
  split at ho
  · simp at ho
  · obtain ⟨p, hp, hf⟩ := List.mem_filterMap.mp ho
    split at hf
    · split at hf
      · rename_i hm
        obtain rfl := Option.some.inj hf
        exact ⟨hm, hm⟩
      · exact absurd hf (by simp)
    · exact absurd hf (by simp)

/-- C8 witness: a concrete five-exchange group in which exchange `exX`
deviates 66.7% from the mean and its mapping method is `"symbol"`. -/
theorem claim_C8_witness :
    ((⟨"exX", 7, 9, 1, Rat.divInt 3 5, Rat.divInt 200 3, "symbol", 0⟩ : OutlierRec) ∈
      storeOutliers (detectPairOutliers ⟨[(("exX", 7), "symbol")], Rat.divInt 1 20, 2⟩
        [⟨"exX", 7, 9, 1, 0⟩, ⟨"ex2", 7, 9, Rat.divInt 1 2, 0⟩,
         ⟨"ex3", 7, 9, Rat.divInt 1 2, 0⟩, ⟨"ex4", 7, 9, Rat.divInt 1 2, 0⟩,
         ⟨"ex5", 7, 9, Rat.divInt 1 2, 0⟩])) ∧
    (⟨"exX", 7, 9, 1, Rat.divInt 3 5, Rat.divInt 200 3, "symbol", 0⟩ : OutlierRec).MappingMethod
        = "symbol" ∧
    getMappingMethod [(("exX", 7), "symbol")] "exX" 7 = "symbol" :=
  ⟨by decide, claim_C8 ⟨[(("exX", 7), "symbol")], Rat.divInt 1 20, 2⟩
    [⟨"exX", 7, 9, 1, 0⟩, ⟨"ex2", 7, 9, Rat.divInt 1 2, 0⟩,
     ⟨"ex3", 7, 9, Rat.divInt 1 2, 0⟩, ⟨"ex4", 7, 9, Rat.divInt 1 2, 0⟩,
     ⟨"ex5", 7, 9, Rat.divInt 1 2, 0⟩]
    ⟨"exX", 7, 9, 1, Rat.divInt 3 5, Rat.divInt 200 3, "symbol", 0⟩ (by decide)⟩

theorem foldl_insertByExchange_ne_nil (l : List PriceData) :
    ∀ m : List PriceData, m ≠ [] → l.foldl insertByExchange m ≠ [] := by
  induction l with
  | nil => intro m hm; simpa using hm
  | cons p rest ih =>
    intro m hm
    simp only [List.foldl_cons]
    apply ih
    unfold insertByExchange
    split
    · intro hcontra
      exact hm (List.map_eq_nil_iff.mp hcontra)
    · simp

theorem dedupByExchange_ne_nil (l : List PriceData) (hl : l ≠ []) :
    dedupByExchange l ≠ [] := by
  cases l with
  | nil => exact absurd rfl hl
  | cons p rest =>
    unfold dedupByExchange
    simp only [List.foldl_cons]
    apply foldl_insertByExchange_ne_nil
    unfold insertByExchange
    simp

/-- Among what `Calculate` guarantees of a successful result: the
deduplicated exchange map it was built from is nonempty. -/
theorem calculate_ok_spec (now : ℤ) (prices : List PriceData) (r : VWAPResult)
    (h : Calculate now prices = .ok r) :
    1 ≤ r.ExchangeCount ∧ r.PriceSources ≠ [] := by
  simp only [Calculate] at h
  split at h
  · exact absurd h (by simp)
  · split at h
    · exact absurd h (by simp)
    · split at h
      · exact absurd h (by simp)
      · rename_i hlen
        obtain rfl := Except.ok.inj h
        have hne : removeOutliers (filterValidPrices prices) ≠ [] := by
          intro hc
          exact hlen (by simp [hc])
        have hd := dedupByExchange_ne_nil _ hne
        constructor
        · simpa [calculateVWAP, Nat.one_le_iff_ne_zero, List.length_eq_zero] using hd
        · simp only [calculateVWAP, ne_eq, List.map_eq_nil_iff]
          exact hd

/-- C1 (amended): the engine itself enforces no exchange minimum —
`Calculate` emits a result whenever at least one entry survives
validation, and every emitted result has `exchange_count ≥ 1` (the
number of distinct exchanges kept); the ≥2-exchange policy lives
upstream in the VWAP service's grouping, not here. -/
theorem claim_C1_amended (now : ℤ) (prices : List PriceData) (r : VWAPResult)
    (h : Calculate now prices = .ok r) : 1 ≤ r.ExchangeCount :=
  (calculate_ok_spec now prices r h).1

/-- C1 witness: a concrete single-exchange group whose result has
`exchange_count = 1`. -/
theorem claim_C1_witness :
    Calculate 0 [⟨"binance", "BTC-USDT", 100, 10, Rat.divInt 3 20, 0⟩]
        = .ok ⟨"BTC-USDT", "", 100, 10, 1, ["binance"],
            [⟨"binance", 100, 10, Rat.divInt 3 20⟩], 0⟩ ∧
    1 ≤ (⟨"BTC-USDT", "", 100, 10, 1, ["binance"],
        [⟨"binance", 100, 10, Rat.divInt 3 20⟩], 0⟩ : VWAPResult).ExchangeCount :=
  ⟨by decide, claim_C1_amended 0 [⟨"binance", "BTC-USDT", 100, 10, Rat.divInt 3 20, 0⟩]
    ⟨"BTC-USDT", "", 100, 10, 1, ["binance"], [⟨"binance", 100, 10, Rat.divInt 3 20⟩], 0⟩
    (by decide)⟩

/-- One step of `CalculateBatch`, as an `Option`-valued map. -/
def batchFn (now : ℤ) (kv : String × List PriceData) : Option (String × VWAPResult) :=
  match Calculate now kv.2 with
  | .ok r => some (kv.1, r)
  | .error _ => none

theorem calculateBatch_eq_aux (now : ℤ) (pairs : List (String × List PriceData)) :
    ∀ acc : List (String × VWAPResult),
      pairs.foldl (fun results kv =>
          match Calculate now kv.2 with
          | .ok r => results ++ [(kv.1, r)]
          | .error _ => results) acc
        = acc ++ pairs.filterMap (batchFn now) := by
  induction pairs with
  | nil => intro acc; simp
  | cons kv tl ih =>
    intro acc
    simp only [List.foldl_cons, List.filterMap_cons]
    cases hC : Calculate now kv.2 with
    | error e => simp only [batchFn, hC]; exact ih acc
    | ok r => simp only [batchFn, hC, ih, List.append_assoc, List.singleton_append]

theorem calculateBatch_eq (now : ℤ) (pairs : List (String × List PriceData)) :
    CalculateBatch now pairs = pairs.filterMap (batchFn now) := by
  rw [CalculateBatch]
  simpa only [List.nil_append] using calculateBatch_eq_aux now pairs []

theorem lookup_batch_none_of_not_mem (now : ℤ) (pairs : List (String × List PriceData))
    (k : String) (hk : k ∉ pairs.map Prod.fst) :
    (pairs.filterMap (batchFn now)).lookup k = none := by
  induction pairs with
  | nil => rfl
  | cons kv tl ih =>
    simp only [List.map_cons, List.mem_cons, not_or] at hk
    obtain ⟨hk1, hk2⟩ := hk
    simp only [List.filterMap_cons]
    cases hC : Calculate now kv.2 with
    | error e => simp only [batchFn, hC]; exact ih hk2
    | ok r =>
      have hbeq : (k == kv.1) = false := beq_eq_false_iff_ne.mpr hk1
      simp only [batchFn, hC, List.lookup, hbeq]
      exact ih hk2

theorem batch_lookup_none (now : ℤ) (pairs : List (String × List PriceData))
    (k : String) (ps : List PriceData) (hnd : (pairs.map Prod.fst).Nodup)
    (hmem : (k, ps) ∈ pairs) (hcalc : (Calculate now ps).toOption = none) :
    (pairs.filterMap (batchFn now)).lookup k = none := by
  induction pairs with
  | nil => simp at hmem
  | cons kv tl ih =>
    simp only [List.map_cons, List.nodup_cons] at hnd
    obtain ⟨hk1, hnd2⟩ := hnd
    simp only [List.filterMap_cons]
    rcases List.mem_cons.mp hmem with heq | htl
    · obtain rfl := heq.symm
      cases hC : Calculate now ps with
      | ok r => rw [hC] at hcalc; exact absurd hcalc (by simp [Except.toOption])
      | error e =>
        simp only [batchFn, hC]
        exact lookup_batch_none_of_not_mem now tl k hk1
    · have hkmem : k ∈ tl.map Prod.fst := List.mem_map.mpr ⟨(k, ps), htl, rfl⟩
      have hne : kv.1 ≠ k := fun hcontra => hk1 (hcontra ▸ hkmem)
      cases hC : Calculate now kv.2 with
      | error e => simp only [batchFn, hC]; exact ih hnd2 htl
      | ok r =>
        have hbeq : (k == kv.1) = false := beq_eq_false_iff_ne.mpr (Ne.symm hne)
        simp only [batchFn, hC, List.lookup, hbeq]
        exact ih hnd2 htl

/-- C10: `Calculate` errors whenever the input is empty or every entry
is removed by validation; a successful result is never built from zero
entries (`exchange_count ≥ 1`, nonempty price sources); and in
`CalculateBatch` a pair whose calculation errors is absent from the
output map. -/
theorem claim_C10 (now : ℤ) (prices ps : List PriceData)
    (pairs : List (String × List PriceData)) (k : String) :
    (prices.filter validPrice = [] → (Calculate now prices).toOption = none) ∧
    (∀ r : VWAPResult, Calculate now prices = .ok r →
      1 ≤ r.ExchangeCount ∧ r.PriceSources ≠ []) ∧
    ((pairs.map Prod.fst).Nodup → (k, ps) ∈ pairs →
      (Calculate now ps).toOption = none →
      (CalculateBatch now pairs).lookup k = none) := by
  refine ⟨?_, fun r h => calculate_ok_spec now prices r h, ?_⟩
  · intro hf
    cases h : Calculate now prices with
    | error e => rfl
    | ok r =>
      exfalso
      simp only [Calculate, filterValidPrices, hf, List.length_nil] at h
      split at h <;> exact absurd h (by simp)
  · intro hnd hmem hcalc
    rw [calculateBatch_eq]
    exact batch_lookup_none now pairs k ps hnd hmem hcalc

/-- C10 witness: a ticker rejected by validation (negative price) and a
one-pair batch built from it: the calculation errors and the pair is
absent from the batch output. -/
theorem claim_C10_witness :
    (Calculate 0 [⟨"binance", "BTC-USDT", -5, 10, 1, 0⟩]).toOption = none ∧
    (CalculateBatch 0 [("BTC-USDT", [⟨"binance", "BTC-USDT", -5, 10, 1, 0⟩])]).lookup
      "BTC-USDT" = none :=
  ⟨(claim_C10 0 [⟨"binance", "BTC-USDT", -5, 10, 1, 0⟩] [] [] "BTC-USDT").1 (by decide),
   (claim_C10 0 [] [⟨"binance", "BTC-USDT", -5, 10, 1, 0⟩]
      [("BTC-USDT", [⟨"binance", "BTC-USDT", -5, 10, 1, 0⟩])] "BTC-USDT").2.2
     (by decide) (by decide) (by decide)⟩

/-- C2 (amended): the revert guard compares the surviving count against
`len/2` in Go integer division, so a 3-entry group reverts only when
*every* entry is trimmed; when exactly 2 of 3 entries deviate from the
mean by more than the 10% threshold, the single non-deviating entry
alone is kept — the untrimmed set is not restored. -/
theorem claim_C2_amended (a b c : PriceData)
    (ha : decAbs (decSub a.Price (calculateMedianPrice [a, b, c]))
        ≤ decMul (calculateMedianPrice [a, b, c]) (Rat.divInt 1 10))
    (hb : ¬(decAbs (decSub b.Price (calculateMedianPrice [a, b, c]))
        ≤ decMul (calculateMedianPrice [a, b, c]) (Rat.divInt 1 10)))
    (hc : ¬(decAbs (decSub c.Price (calculateMedianPrice [a, b, c]))
        ≤ decMul (calculateMedianPrice [a, b, c]) (Rat.divInt 1 10))) :
    removeOutliers [a, b, c] = [a] := by
  simp only [removeOutliers, List.length_cons, List.length_nil]
  rw [if_neg (by omega)]
  simp only [List.filter_cons, List.filter_nil, decide_eq_true ha, decide_eq_false hb,
    decide_eq_false hc, if_true, if_false]
  rfl

/-- C2 witness: prices 200, 260, 140 have mean 200 and threshold 20;
the entries at 260 and 140 deviate by 60 and are trimmed, leaving only
the first entry. -/
theorem claim_C2_witness :
    (decAbs (decSub (200 : ℚ) (calculateMedianPrice
        [⟨"ex1", "P", 200, 10, Rat.divInt 1 20, 0⟩, ⟨"ex2", "P", 260, 10, Rat.divInt 1 20, 0⟩,
         ⟨"ex3", "P", 140, 10, Rat.divInt 1 20, 0⟩]))
      ≤ decMul (calculateMedianPrice
        [⟨"ex1", "P", 200, 10, Rat.divInt 1 20, 0⟩, ⟨"ex2", "P", 260, 10, Rat.divInt 1 20, 0⟩,
         ⟨"ex3", "P", 140, 10, Rat.divInt 1 20, 0⟩]) (Rat.divInt 1 10)) ∧
    removeOutliers [⟨"ex1", "P", 200, 10, Rat.divInt 1 20, 0⟩,
        ⟨"ex2", "P", 260, 10, Rat.divInt 1 20, 0⟩, ⟨"ex3", "P", 140, 10, Rat.divInt 1 20, 0⟩]
      = [⟨"ex1", "P", 200, 10, Rat.divInt 1 20, 0⟩] :=
  ⟨by decide,
   claim_C2_amended ⟨"ex1", "P", 200, 10, Rat.divInt 1 20, 0⟩
     ⟨"ex2", "P", 260, 10, Rat.divInt 1 20, 0⟩ ⟨"ex3", "P", 140, 10, Rat.divInt 1 20, 0⟩
     (by decide) (by decide) (by decide)⟩

theorem t_not_prefix_upper (symbol : Str) :
    (['t'] : Str).isPrefixOf (upperStr symbol) = false := by
  cases symbol with
  | nil => rfl
  | cons a as =>
    show (['t'] : Str).isPrefixOf (Char.toUpper a :: as.map Char.toUpper) = false
    simp only [List.isPrefixOf]
    rw [beq_eq_false_iff_ne.mpr (fun h => toUpper_ne_t a h.symm)]
    rfl

theorem isPrefixOf_XX_imp_X (u : Str) :
    (['X', 'X'] : Str).isPrefixOf u = true → (['X'] : Str).isPrefixOf u = true := by
  cases u with
  | nil => intro h; simp [List.isPrefixOf] at h
  | cons c cs =>
    intro h
    simp only [List.isPrefixOf, Bool.and_eq_true] at h ⊢
    exact ⟨h.1, by simp [List.isPrefixOf]⟩

/-- What `normalizeSymbol` actually computes, stated directly: after
uppercasing, only a single leading `X` is ever stripped (the `XX` entry
is shadowed by `X`, and `t` cannot occur in an uppercased string), and
the `XBT→BTC` aliasing fires only when the *stripped* result is exactly
`XBT`. -/
def normalizeSymbolAmended (symbol : Str) : Str :=
  let u := upperStr symbol
  let stripped :=
    if (['X'] : Str).isPrefixOf u && decide (1 < u.length) then u.drop 1 else u
  if stripped = ['X', 'B', 'T'] then ['B', 'T', 'C'] else stripped

theorem stripPrefixLoop_upper (symbol : Str) :
    stripPrefixLoop [['X'], ['X', 'X'], ['t']] (upperStr symbol)
      = if (['X'] : Str).isPrefixOf (upperStr symbol)
            && decide ((['X'] : Str).length < (upperStr symbol).length)
        then (upperStr symbol).drop (['X'] : Str).length
        else upperStr symbol := by
  simp only [stripPrefixLoop]
  by_cases h1 : ((['X'] : Str).isPrefixOf (upperStr symbol)
      && decide ((['X'] : Str).length < (upperStr symbol).length)) = true
  · rw [if_pos h1, if_pos h1]
  · rw [if_neg h1, if_neg h1]
    have h2 : ¬((['X', 'X'] : Str).isPrefixOf (upperStr symbol)
        && decide ((['X', 'X'] : Str).length < (upperStr symbol).length)) = true := by
      intro hcon
      rw [Bool.and_eq_true] at hcon
      obtain ⟨hpre, hlen⟩ := hcon
      apply h1
      rw [Bool.and_eq_true]
      have hlen2 : 2 < (upperStr symbol).length := of_decide_eq_true hlen
      refine ⟨isPrefixOf_XX_imp_X _ hpre, decide_eq_true ?_⟩
      show 1 < (upperStr symbol).length
      omega
    have h3 : ¬((['t'] : Str).isPrefixOf (upperStr symbol)
        && decide ((['t'] : Str).length < (upperStr symbol).length)) = true := by
      intro hcon
      rw [Bool.and_eq_true, t_not_prefix_upper] at hcon
      exact Bool.false_ne_true hcon.1
    rw [if_neg h2, if_neg h3]

/-- C9 (amended): `normalizeSymbol` uppercases its input and strips one
leading `X` when more than one character remains (the `XX` and `t`
prefixes of the source list can never fire), then substitutes `XBT` by
`BTC` only on exact equality of the stripped result; in particular
`XXBT ↦ BTC` but `XBT ↦ BT`. -/
theorem claim_C9_amended (symbol : Str) :
    normalizeSymbol symbol = normalizeSymbolAmended symbol := by
  simp only [normalizeSymbol, normalizeSymbolAmended]
  rw [stripPrefixLoop_upper]
  simp

theorem replaceAllGo_single (a : Char) :
    ∀ (fuel : ℕ) (s : Str), s.length ≤ fuel →
      replaceAllGo [a] [] fuel s = s.filter (fun c => !(c == a)) := by
  intro fuel
  induction fuel with
  | zero =>
    intro s hs
    cases s with
    | nil => rfl
    | cons c rest => simp at hs
  | succ n ih =>
    intro s hs
    cases s with
    | nil => rfl
    | cons c rest =>
      have hrest : rest.length ≤ n := by
        simp only [List.length_cons] at hs
        omega
      simp only [replaceAllGo, List.isPrefixOf, List.filter_cons]
      by_cases hc : (a == c) = true
      · have hc2 : (c == a) = true := by
          rw [beq_iff_eq] at hc ⊢
          exact hc.symm
        have hdrop : List.drop ([a] : Str).length (c :: rest) = rest := rfl
        rw [hc2, hdrop]
        simp only [hc, Bool.and_true, Bool.not_true, Bool.false_eq_true, if_false, if_true,
          List.nil_append]
        exact ih rest hrest
      · have hca : (a == c) = false := by
          rw [Bool.not_eq_true] at hc
          exact hc
        have hc2 : (c == a) = false := by
          rw [beq_eq_false_iff_ne] at hca ⊢
          exact fun h => hca h.symm
        rw [hc2]
        simp only [hca, Bool.false_and, Bool.not_false, Bool.false_eq_true, if_false, if_true]
        rw [ih rest hrest]

theorem replaceAll_single (a : Char) (s : Str) :
    replaceAll s [a] [] = s.filter (fun c => !(c == a)) := by
  rw [replaceAll, if_neg (by simp), replaceAllGo_single a s.length s le_rfl]

/-- Joining `(base, quote)` in the concatenated `BTCUSDT` format
produces `base ++ quote` whenever neither part contains a separator and
both are already uppercase. -/
theorem formatJoin_concat (base quote : Str) (hb : ('-') ∉ base) (hq : ('-') ∉ quote)
    (hU : upperStr (base ++ quote) = base ++ quote) :
    formatJoin "BTCUSDT" base quote = base ++ quote := by
  rw [formatJoin, normalizeSymbolEx, if_pos rfl, replaceAll_single]
  have hfil : (base ++ '-' :: quote).filter (fun c => !(c == '-'))
      = base ++ quote := by
    rw [List.filter_append, List.filter_cons]
    simp only [beq_self_eq_true, Bool.not_true, Bool.false_eq_true, if_false]
    rw [List.filter_eq_self.mpr, List.filter_eq_self.mpr]
    · intro x hx
      simp only [Bool.not_eq_true', beq_eq_false_iff_ne]
      exact fun hxe => hq (hxe ▸ hx)
    · intro x hx
      simp only [Bool.not_eq_true', beq_eq_false_iff_ne]
      exact fun hxe => hb (hxe ▸ hx)
  rw [hfil, hU]

/-- C3 (amended): the suffix match of `ParseSymbolPair` is performed in
the *stored order* of the quote-currency list (first match wins), not
longest-first; the round trip holds for the concatenated format exactly
when the pair's quote is the first list element that suffixes the
joined symbol and both parts are uppercase and separator-free. -/
theorem claim_C3_amended (quotes : List Str) (base quote : Str)
    (hb : ('-') ∉ base) (hq : ('-') ∉ quote)
    (hU : upperStr (base ++ quote) = base ++ quote)
    (hFind : quotes.find? (fun q => q.isSuffixOf (base ++ quote)) = some quote) :
    ParseSymbolPair quotes (formatJoin "BTCUSDT" base quote) "BTCUSDT" = (base, quote) := by
  rw [formatJoin_concat base quote hb hq hU]
  rw [ParseSymbolPair, if_neg (by decide), if_neg (by decide), if_neg (by decide),
    if_neg (by decide)]
  rw [suffixPhase, hU, hFind]
  have hsuf : quote.isSuffixOf (base ++ quote) = true :=
    List.isSuffixOf_iff_suffix.mpr (List.suffix_append base quote)
  simp only [trimSuffix]
  rw [if_pos hsuf, List.length_append, Nat.add_sub_cancel, List.take_left]

/-- C3 witness: with the list `["USDT", "USD"]` the pair
`(BTC, USDT)` joins to `BTCUSDT` and parses back to `(BTC, USDT)` —
`USDT` is the first suffix match in list order. -/
theorem claim_C3_witness :
    (["USDT".data, "USD".data].find?
        (fun q => q.isSuffixOf ("BTC".data ++ "USDT".data)) = some "USDT".data) ∧
    ParseSymbolPair ["USDT".data, "USD".data]
        (formatJoin "BTCUSDT" "BTC".data "USDT".data) "BTCUSDT"
      = ("BTC".data, "USDT".data) :=
  ⟨by decide,
   claim_C3_amended ["USDT".data, "USD".data] "BTC".data "USDT".data
     (by decide) (by decide) (by decide) (by decide)⟩

end Trading
